import Mathlib

/-
Verification of the geotiny seismometer repository.

Shallow embedding of the core data model and operations:
* `web/api/devices.py` — ring buffers (`collections.deque(maxlen=3000)`),
  `GeotinyDevice.connect/disconnect/read_data/get_buffer`, the
  `DeviceManager._acquisition_loop` retry logic and
  `DeviceManager.get_latest_waveform`.
* `app.py` — `_load_last_window` (archive window loader) and `_fft_mag`
  (single-shot FFT spectrum with dominant-frequency extraction).
* `ext_spectrum_live.py` — `_welch_amp2` (Welch-averaged amplitude spectrum).
* `web/api/spectrum.py` — `SpectrumAnalyzer.compute_fft` (dB-normalized FFT).

Python floats are modelled as real numbers; machine timestamps as naturals.
-/

/-! ### Ring buffers (`devices.py`, `GeotinyDevice.__init__` / deque) -/

/-- `self.buffer_size = 3000` (30 seconds at 100 Hz). -/
def buffer_size : ℕ := 3000

/-- One append to a `collections.deque(maxlen=cap)`: insertion at the tail;
once full, the oldest (front) element is silently evicted. -/
def ringPush (cap : ℕ) (buf : List ℝ) (v : ℝ) : List ℝ :=
  if buf.length < cap then buf ++ [v] else buf.drop 1 ++ [v]

/-- Pushing a whole sequence of values into an initially empty ring buffer. -/
def pushAll (cap : ℕ) (vs : List ℝ) : List ℝ :=
  vs.foldl (ringPush cap) []

/-! ### Device state (`GeotinyDevice`) -/

/-- State of one `GeotinyDevice`: connection flag, the three channel ring
buffers (oldest sample first, matching `list(deque)` order), the
`last_data_received` / `last_connection_attempt` timestamps and the fixed
sampling rate (100 Hz). -/
structure GeotinyDevice where
  connected : Bool
  bufX : List ℝ
  bufY : List ℝ
  bufZ : List ℝ
  last_data_received : Option ℕ
  last_connection_attempt : Option ℕ
  sampling_rate : ℝ

/-- Freshly constructed device: disconnected, all buffers empty. -/
def initDevice : GeotinyDevice :=
  ⟨false, [], [], [], none, none, 100⟩

/-- A device in the connected state with empty buffers (state after a
successful `connect()` on a fresh device, timestamps aside). -/
def connectedInit : GeotinyDevice :=
  ⟨true, [], [], [], none, none, 100⟩

/-- `GeotinyDevice.connect`: on success sets `connected = True`, on failure
`connected = False`; either way records the attempt timestamp. Buffers are
untouched. -/
def connectStep (s : GeotinyDevice) (success : Bool) (now : ℕ) : GeotinyDevice :=
  if success then
    { s with connected := true, last_connection_attempt := some now }
  else
    { s with connected := false, last_connection_attempt := some now }

/-- `GeotinyDevice.disconnect`: best-effort close, always ends disconnected.
Buffers are untouched. -/
def disconnectStep (s : GeotinyDevice) : GeotinyDevice :=
  { s with connected := false }

/-- Outcome of one `self.socket.recv(12)` call: `recv n x y z` models a
delivery of `n` bytes which, when `n = 12`, decodes (via `np.frombuffer`,
abstracted) to the three float32 values `x, y, z`; `timeout` models
`socket.timeout`; `ioError` models any other exception during the read. -/
inductive RecvOutcome where
  | recv (nbytes : ℕ) (x y z : ℝ)
  | timeout
  | ioError

/-- `GeotinyDevice.read_data`: if disconnected, first try `connect()` (outcome
`connSucc`) and bail out with `None` if that fails.  Then: a full 12-byte read
appends the decoded sample to all three channel buffers (under the device
lock) and updates `last_data_received`; an incomplete read is only logged and
returns `None` with the state untouched; a timeout or I/O error calls
`disconnect()` and returns `None`. -/
def read_data (s : GeotinyDevice) (connSucc : Bool) (r : RecvOutcome) (now : ℕ) :
    GeotinyDevice × Option (ℝ × ℝ × ℝ) :=
  let s0 := if s.connected then s else connectStep s connSucc now
  if s0.connected = false then (s0, none)
  else
    match r with
    | .recv n x y z =>
      if n = 12 then
        ({ s0 with
            last_data_received := some now,
            bufX := ringPush buffer_size s0.bufX x,
            bufY := ringPush buffer_size s0.bufY y,
            bufZ := ringPush buffer_size s0.bufZ z },
         some (x, y, z))
      else (s0, none)
    | .timeout => (disconnectStep s0, none)
    | .ioError => (disconnectStep s0, none)

/-- `GeotinyDevice.get_buffer`: snapshot of one channel's buffer in
chronological order; unknown channels yield an empty array. -/
def get_buffer (s : GeotinyDevice) (channel : String) : List ℝ :=
  if channel = "X" then s.bufX
  else if channel = "Y" then s.bufY
  else if channel = "Z" then s.bufZ
  else []

/-- A sequence of successful 12-byte reads applied to a device. -/
def readMany (s : GeotinyDevice) (vs : List (ℝ × ℝ × ℝ)) : GeotinyDevice :=
  vs.foldl (fun st v => (read_data st true (.recv 12 v.1 v.2.1 v.2.2) 0).1) s

/-! ### Device operations as a step relation (for the buffer invariant) -/

/-- One externally triggered operation on a device.  `get_buffer` and
`get_status` are pure reads and leave the state unchanged. -/
inductive DevOp where
  | opConnect (success : Bool) (now : ℕ)
  | opDisconnect
  | opRead (connSucc : Bool) (r : RecvOutcome) (now : ℕ)
  | opGetBuffer
  | opGetStatus

/-- Effect of one operation on the device state. -/
def applyOp (s : GeotinyDevice) : DevOp → GeotinyDevice
  | .opConnect b now => connectStep s b now
  | .opDisconnect => disconnectStep s
  | .opRead cs r now => (read_data s cs r now).1
  | .opGetBuffer => s
  | .opGetStatus => s

/-- Device states reachable from a fresh device by any operation sequence. -/
inductive ReachableDev : GeotinyDevice → Prop where
  | init : ReachableDev initDevice
  | step {s : GeotinyDevice} (op : DevOp) : ReachableDev s → ReachableDev (applyOp s op)

/-! ### Acquisition loop (`DeviceManager._acquisition_loop`) -/

/-- One pass of the acquisition loop for a single device (`devices.py`,
lines 221–233): if the device is disconnected, attempt `connect()` only once
the retry counter has reached 10 and reset the counter regardless of the
connect outcome, otherwise just increment the counter; if connected, issue
`read_data()` and reset the counter on success.  Returns the new device
state, the new retry counter, and whether `connect()` was issued. -/
def acqStep (s : GeotinyDevice) (c : ℕ) (connSucc : Bool) (r : RecvOutcome) (now : ℕ) :
    GeotinyDevice × ℕ × Bool :=
  if s.connected = false then
    if 10 ≤ c then (connectStep s connSucc now, 0, true)
    else (s, c + 1, false)
  else
    let res := read_data s connSucc r now
    (res.1, if res.2.isSome then 0 else c, false)

/-- Trace of the loop for a permanently unreachable device: every `connect()`
fails (`connSucc = false`) and every read — never actually issued while the
device stays disconnected — would time out.  The retry counter starts at 0 as
in `_acquisition_loop`. -/
def failTrace (s0 : GeotinyDevice) : ℕ → GeotinyDevice × ℕ
  | 0 => (s0, 0)
  | n + 1 =>
    let p := failTrace s0 n
    let q := acqStep p.1 p.2 false .timeout n
    (q.1, q.2.1)

/-- Whether cycle `n` of the failing trace issues a `connect()` attempt. -/
def attemptAt (s0 : GeotinyDevice) (n : ℕ) : Bool :=
  (acqStep (failTrace s0 n).1 (failTrace s0 n).2 false .timeout n).2.2

/-! ### Waveform accessor (`DeviceManager.get_latest_waveform`) -/

/-- Maximum of a nonempty list, `np.max` style (0 for the empty list, which
the source never queries). -/
noncomputable def maxList : List ℝ → ℝ
  | [] => 0
  | a :: t => t.foldl max a

/-- Minimum of a nonempty list, `np.min` style. -/
noncomputable def minList : List ℝ → ℝ
  | [] => 0
  | a :: t => t.foldl min a

/-- Result bundle of `get_latest_waveform`. -/
structure Waveform where
  device_id : String
  channel : String
  sampling_rate : ℝ
  data : List ℝ
  times : List ℝ
  amp_min : ℝ
  amp_max : ℝ

/-- `DeviceManager.get_latest_waveform` (`devices.py` lines 252–295): `None`
for an unknown device id or an empty channel buffer; otherwise the last
`samples` entries of the buffer (note the Python quirk: `buffer[-0:]` is the
whole buffer) together with the synthesized time axis
`times = arange(len(data))·dt − len(buffer)·dt`, `dt = 1/fs`.  The manager's
device table is modelled as a lookup function; the Python code performs no
writes here, so the embedding is a pure function of that table. -/
noncomputable def get_latest_waveform (devices : String → Option GeotinyDevice)
    (device_id channel : String) (samples : ℕ) : Option Waveform :=
  match devices device_id with
  | none => none
  | some dev =>
    let buffer := get_buffer dev channel
    if buffer.length = 0 then none
    else
      let data :=
        if samples < buffer.length then
          if samples = 0 then buffer else buffer.drop (buffer.length - samples)
        else buffer
      let dt := 1 / dev.sampling_rate
      let times := (List.range data.length).map
        (fun (i : ℕ) => (i : ℝ) * dt - (buffer.length : ℝ) * dt)
      some ⟨device_id, channel, dev.sampling_rate, data, times,
            minList data, maxList data⟩

/-! ### Archive window loader (`app.py`, `_load_last_window`) -/

/-- Arithmetic mean of a list, `np.mean` style. -/
noncomputable def listMean (l : List ℝ) : ℝ := l.sum / l.length

/-- One decoded miniSEED trace: its sample data and sampling rate. -/
structure RawTrace where
  data : List ℝ
  fs : ℝ

/-- Number of samples in the requested trailing window,
`round(window_s · fs)`. -/
noncomputable def windowCount (window_s fs : ℝ) : ℕ :=
  (round (window_s * fs)).toNat

/-- Modelled from the spec: ObsPy `Trace.trim(starttime = end − window_s,
endtime = end, pad=True, fill_value=0)` is not part of this repository; per
the spec it trims to exactly the trailing `window_s` seconds, zero-padding
the shortfall when the record is shorter than requested, so the result always
holds exactly `m = round(window_s · fs)` samples. -/
def trimPad (y : List ℝ) (m : ℕ) : List ℝ :=
  List.replicate (m - y.length) 0 ++ y.drop (y.length - m)

/-- A successfully loaded window: sampling rate, wave, synthesized time axis
`arange(n)/fs`, RMS `sqrt(mean(y·y))`, peak-to-peak `max(y) − min(y)`. -/
structure LoadedWindow where
  fs : ℝ
  wave : List ℝ
  time_s : List ℝ
  rms : ℝ
  p2p : ℝ
  n : ℕ

/-- The window record `_load_last_window` builds on success. -/
noncomputable def mkWindow (y : List ℝ) (fs : ℝ) : LoadedWindow :=
  { fs := fs
    wave := y
    time_s := (List.range y.length).map (fun (i : ℕ) => (i : ℝ) / fs)
    rms := Real.sqrt (listMean (y.map (fun v => v * v)))
    p2p := maxList y - minList y
    n := y.length }

/-- `_load_last_window` (`app.py` lines 61–126).  `latest` is the result of
`_latest_mseed_path` + `obspy.read`: `none` when no matching record file
exists, otherwise the decoded stream (a list of traces).  `hygiene` abstracts
the merge/detrend/taper ObsPy calls (each wrapped in `try/except` in the
source); it transforms the trace data and leaves the sampling rate alone.
Failure cases, in source order: no file, empty stream, non-positive sampling
rate, fewer than 10 samples after trimming. -/
noncomputable def load_last_window (latest : Option (List RawTrace))
    (hygiene : List ℝ → List ℝ) (window_s : ℝ) : Except String LoadedWindow :=
  match latest with
  | none => .error "No miniSEED found"
  | some [] => .error "Empty stream"
  | some (tr :: _) =>
    let y0 := hygiene tr.data
    let fs := tr.fs
    if fs ≤ 0 then .error "Invalid sampling rate"
    else
      let y := trimPad y0 (windowCount window_s fs)
      if y.length < 10 then .error "Trace too short"
      else .ok (mkWindow y fs)

/-! ### Spectral primitives (Hann window, real DFT) -/

/-- `np.hanning(M)` / `scipy.signal.hann(M)` (symmetric):
`0.5 − 0.5·cos(2πj/(M−1))` for `M ≥ 2`, and `[1]` for `M = 1`. -/
noncomputable def hanning (M : ℕ) (j : ℕ) : ℝ :=
  if M ≤ 1 then 1
  else 1 / 2 - 1 / 2 * Real.cos (2 * Real.pi * j / (M - 1))

/-- Real part of the `k`-th DFT coefficient of `y`. -/
noncomputable def dftRe (y : List ℝ) (k : ℕ) : ℝ :=
  ∑ j ∈ Finset.range y.length,
    y.getD j 0 * Real.cos (2 * Real.pi * k * j / y.length)

/-- Imaginary part of the `k`-th DFT coefficient of `y`. -/
noncomputable def dftIm (y : List ℝ) (k : ℕ) : ℝ :=
  -∑ j ∈ Finset.range y.length,
    y.getD j 0 * Real.sin (2 * Real.pi * k * j / y.length)

/-- Magnitude of the `k`-th DFT coefficient (`np.abs` of `np.fft.fft/rfft`
output). -/
noncomputable def dftAbs (y : List ℝ) (k : ℕ) : ℝ :=
  Real.sqrt (dftRe y k ^ 2 + dftIm y k ^ 2)

/-- Remove the mean of a signal (`x - np.mean(x)`). -/
noncomputable def demean (l : List ℝ) : List ℝ := l.map (fun v => v - listMean l)

/-- Apply a Hann window of the signal's own length (`y * np.hanning(n)`). -/
noncomputable def applyWindow (y : List ℝ) : List ℝ :=
  (List.range y.length).map (fun j => y.getD j 0 * hanning y.length j)

/-- Coherent gain of the Hann window: `win.sum() / nperseg` (the mean of the
window function). -/
noncomputable def coherentGain (L : ℕ) : ℝ :=
  (∑ j ∈ Finset.range L, hanning L j) / L

/-! ### Welch estimator (`ext_spectrum_live.py`, `_welch_amp2`) -/

/-- One-sided-spectrum doubling factor applied in `_welch_amp2`: for even `L`
the slice `S[1:-1]` is doubled (guarded by `S.size > 2`), for odd `L` the
slice `S[1:]` (guarded by `S.size > 1`); bin 0 is never doubled, and for even
`L` neither is the Nyquist bin. -/
def binDouble (L size k : ℕ) : ℝ :=
  if L % 2 = 0 then
    if 2 < size ∧ 1 ≤ k ∧ k + 2 ≤ size then 2 else 1
  else
    if 1 < size ∧ 1 ≤ k then 2 else 1

/-- Contribution of segment `s` to the Welch power accumulator, at bin `k`:
take the `L`-sample slice starting at `s · hop` of the globally demeaned
signal, remove the segment mean, apply the Hann window, and form
`binDouble · (|X_k| / (L · coherentGain))²`. -/
noncomputable def segPowerAt (xc : List ℝ) (L hop s k : ℕ) : ℝ :=
  let seg := (xc.drop (s * hop)).take L
  let segd := demean seg
  let w := (List.range L).map (fun j => segd.getD j 0 * hanning L j)
  binDouble L (L / 2 + 1) k * (dftAbs w k / (L * coherentGain L)) ^ 2

/-- The accumulation loop of `_welch_amp2` (`for s in range(nseg)` with the
`break` on a short slice), accumulating per-bin power into `P`. -/
noncomputable def welchLoop (xc : List ℝ) (L hop : ℕ) : ℕ → ℕ → (ℕ → ℝ) → (ℕ → ℝ)
  | _, 0, P => P
  | s, fuel + 1, P =>
    if ((xc.drop (s * hop)).take L).length = L then
      welchLoop xc L hop (s + 1) fuel (fun k => P k + segPowerAt xc L hop s k)
    else P

/-- `_welch_amp2(wave, fs, nperseg, noverlap, fmax)`: Welch-averaged amplitude
spectrum.  Returns the frequency and magnitude axes (the metadata dict of the
source is dropped).  Structure follows the source: early empty return when
`n < max(2, nperseg)` or `fs ≤ 0` (Python `not fs or fs <= 0`), global mean
removal, `hop = max(1, nperseg − noverlap)`, `nseg = 1 + (n − nperseg) //
hop` with its (vacuous) `nseg < 1` check, the accumulation loop, division by
`max(1, nseg)`, square root, and the optional `fmax` truncation applied to
both axes. -/
noncomputable def welch_amp2 (wave : List ℝ) (fs : ℝ) (nperseg noverlap : ℕ)
    (fmax : Option ℝ) : List ℝ × List ℝ :=
  let n := wave.length
  if fs ≤ 0 ∨ n < max 2 nperseg then ([], [])
  else
    let xc := demean wave
    let hop := max 1 (nperseg - noverlap)
    let nseg := 1 + (n - nperseg) / hop
    if nseg < 1 then ([], [])
    else
      let P := welchLoop xc nperseg hop 0 nseg (fun _ => 0)
      let size := nperseg / 2 + 1
      let freq := (List.range size).map (fun (k : ℕ) => (k : ℝ) * fs / nperseg)
      let mag := (List.range size).map
        (fun k => Real.sqrt (P k / (max 1 nseg : ℕ)))
      match fmax with
      | none => (freq, mag)
      | some fm =>
        let pairs := (freq.zip mag).filter (fun p => p.1 ≤ fm)
        (pairs.map Prod.fst, pairs.map Prod.snd)

/-! ### Single-shot FFT spectrum (`app.py`, `_fft_mag`) -/

/-- First index attaining the maximum of a list (`np.argmax`); 0 for lists of
fewer than two elements. -/
noncomputable def firstArgmax : List ℝ → ℕ
  | [] => 0
  | [_] => 0
  | a :: b :: t =>
    if (b :: t).getD (firstArgmax (b :: t)) 0 ≤ a then 0
    else firstArgmax (b :: t) + 1

/-- `_fft_mag(wave, fs, fmax)` (`app.py` lines 128–151): Hann-window the
signal, take the one-sided FFT magnitude and the `rfftfreq` axis, truncate
both axes to `min(fmax, fs/2)`, and report the dominant frequency as the
frequency of the maximum-magnitude bin excluding bin 0 whenever more than two
bins remain, else 0. -/
noncomputable def fft_mag (wave : List ℝ) (fs fmax : ℝ) : List ℝ × List ℝ × ℝ :=
  let n := wave.length
  let yw := applyWindow wave
  let size := n / 2 + 1
  let f := (List.range size).map (fun (k : ℕ) => (k : ℝ) * fs / n)
  let mag := (List.range size).map (fun k => dftAbs yw k)
  let fmaxEff := min fmax (fs / 2)
  let pairs := (f.zip mag).filter (fun p => p.1 ≤ fmaxEff)
  let f2 := pairs.map Prod.fst
  let mag2 := pairs.map Prod.snd
  let dom :=
    if 2 < f2.length then f2.getD (firstArgmax (mag2.drop 1) + 1) 0 else 0
  (f2, mag2, dom)

/-! ### dB-normalized FFT (`web/api/spectrum.py`, `SpectrumAnalyzer.compute_fft`) -/

/-- `np.abs(fft(windowed_data))[:n // 2]` of the demeaned, Hann-windowed
signal — the linear magnitude spectrum of `compute_fft`. -/
noncomputable def fftLinVals (data : List ℝ) : List ℝ :=
  (List.range (data.length / 2)).map (fun k => dftAbs (applyWindow (demean data)) k)

/-- `20 * np.log10(fft_vals + 1e-10)`. -/
noncomputable def fftRawDb (data : List ℝ) : List ℝ :=
  (fftLinVals data).map (fun v => 20 * Real.logb 10 (v + 1e-10))

/-- `fft_db - np.max(fft_db)`: the dB spectrum normalized so its peak sits at
0 dB. -/
noncomputable def fftNormDb (data : List ℝ) : List ℝ :=
  (fftRawDb data).map (fun v => v - maxList (fftRawDb data))

/-- `SpectrumAnalyzer.compute_fft` (`spectrum.py` lines 81–126), reduced to
its numerical content: `none` for fewer than 2 samples (the
`'error': 'Insufficient data'` return), otherwise the frequency axis
`fftfreq(n, 1/sr)[:n//2]`, the normalized dB spectrum and the linear
magnitude spectrum. -/
noncomputable def compute_fft (data : List ℝ) (sr : ℝ) :
    Option (List ℝ × List ℝ × List ℝ) :=
  if data.length < 2 then none
  else
    some ((List.range (data.length / 2)).map (fun (k : ℕ) => (k : ℝ) * sr / data.length),
          fftNormDb data, fftLinVals data)

/-! ### Helper lemmas: ring buffer folds -/

theorem ringPush_length (cap : ℕ) (buf : List ℝ) (v : ℝ) :
    (ringPush cap buf v).length =
      if buf.length < cap then buf.length + 1 else buf.length - 1 + 1 := by
  simp only [ringPush]
  split <;> simp

theorem ringPush_foldl_drop (cap : ℕ) (hcap : 0 < cap) :
    ∀ (vs b : List ℝ), b.length ≤ cap →
      vs.foldl (ringPush cap) b = (b ++ vs).drop (b.length + vs.length - cap) := by
  intro vs
  induction vs with
  | nil =>
    intro b hb
    simp [Nat.sub_eq_zero_of_le hb]
  | cons v vs ih =>
    intro b hb
    rw [List.foldl_cons]
    by_cases h : b.length < cap
    · have h1 : ringPush cap b v = b ++ [v] := if_pos h
      rw [h1, ih (b ++ [v]) (by simp; omega)]
      have e1 : (b ++ [v]) ++ vs = b ++ v :: vs := by simp
      have e2 : (b ++ [v]).length + vs.length - cap =
          b.length + (v :: vs).length - cap := by simp; omega
      rw [e1, e2]
  
    · have hbe : b.length = cap := le_antisymm hb (le_of_not_lt h)
      have h1 : ringPush cap b v = b.drop 1 ++ [v] := if_neg h
      have hlen : (b.drop 1 ++ [v]).length = cap := by simp; omega
      rw [h1, ih (b.drop 1 ++ [v]) (le_of_eq hlen)]
      have e1 : b.drop 1 ++ [v] ++ vs = (b ++ v :: vs).drop 1 := by
        rw [List.drop_append_of_le_length (by omega)]
        simp
      have e2 : (b.drop 1 ++ [v]).length + vs.length - cap = vs.length := by
        rw [hlen]; omega
      rw [e1, e2, List.drop_drop]
      have e3 : 1 + vs.length = b.length + (v :: vs).length - cap := by
        simp; omega
      rw [e3]

theorem readMany_bufs :
    ∀ (vs : List (ℝ × ℝ × ℝ)) (s : GeotinyDevice), s.connected = true →
      (readMany s vs).connected = true ∧
      (readMany s vs).bufX = (vs.map (fun v => v.1)).foldl (ringPush buffer_size) s.bufX ∧
      (readMany s vs).bufY = (vs.map (fun v => v.2.1)).foldl (ringPush buffer_size) s.bufY ∧
      (readMany s vs).bufZ = (vs.map (fun v => v.2.2)).foldl (ringPush buffer_size) s.bufZ := by
  intro vs
  induction vs with
  | nil =>
    intro s h
    exact ⟨h, rfl, rfl, rfl⟩
  | cons v vs ih =>
    intro s h
    have hstep : (read_data s true (.recv 12 v.1 v.2.1 v.2.2) 0).1 =
        { s with
            last_data_received := some 0,
            bufX := ringPush buffer_size s.bufX v.1,
            bufY := ringPush buffer_size s.bufY v.2.1,
            bufZ := ringPush buffer_size s.bufZ v.2.2 } := by
      simp [read_data, h]
    have hm : readMany s (v :: vs) =
        readMany { s with
            last_data_received := some 0,
            bufX := ringPush buffer_size s.bufX v.1,
            bufY := ringPush buffer_size s.bufY v.2.1,
            bufZ := ringPush buffer_size s.bufZ v.2.2 } vs := by
      simp only [readMany, List.foldl_cons, hstep]
    rw [hm]
    have ih' := ih _ (show ({ s with
            last_data_received := some 0,
            bufX := ringPush buffer_size s.bufX v.1,
            bufY := ringPush buffer_size s.bufY v.2.1,
            bufZ := ringPush buffer_size s.bufZ v.2.2 } : GeotinyDevice).connected = true from h)
    simpa using ih'

/-- C1: for every channel buffer of a device (capacity 3000), after pushing
`capacity + k` samples (`k > 0`) via successful reads, the `get_buffer`
snapshot has length exactly `capacity` and equals the last `capacity` pushed
values in chronological (oldest-first) order.  The push itself (`ringPush` /
`read_data` on a full 12-byte record) is a total function: it never fails and
never blocks. -/
theorem ring_buffer_last_capacity (vs : List (ℝ × ℝ × ℝ)) (k : ℕ) (hk : 0 < k)
    (hlen : vs.length = buffer_size + k) :
    (get_buffer (readMany connectedInit vs) "X" = (vs.map (fun v => v.1)).drop k ∧
     get_buffer (readMany connectedInit vs) "Y" = (vs.map (fun v => v.2.1)).drop k ∧
     get_buffer (readMany connectedInit vs) "Z" = (vs.map (fun v => v.2.2)).drop k) ∧
    ((get_buffer (readMany connectedInit vs) "X").length = buffer_size ∧
     (get_buffer (readMany connectedInit vs) "Y").length = buffer_size ∧
     (get_buffer (readMany connectedInit vs) "Z").length = buffer_size) := by
  have hb := readMany_bufs vs connectedInit rfl
  have hcap : 0 < buffer_size := by norm_num [buffer_size]
  have hempty : ([] : List ℝ).length ≤ buffer_size := by simp
  have hx : get_buffer (readMany connectedInit vs) "X" = (vs.map (fun v => v.1)).drop k := by
    have hd := ringPush_foldl_drop buffer_size hcap (vs.map (fun v => v.1)) [] hempty
    show (readMany connectedInit vs).bufX = _
    rw [hb.2.1]
    show (vs.map (fun v => v.1)).foldl (ringPush buffer_size) [] = _
    rw [hd]
    simp only [List.length_nil, List.nil_append, List.length_map, hlen, Nat.zero_add,
      Nat.add_sub_cancel_left]
  have hy : get_buffer (readMany connectedInit vs) "Y" = (vs.map (fun v => v.2.1)).drop k := by
    have hd := ringPush_foldl_drop buffer_size hcap (vs.map (fun v => v.2.1)) [] hempty
    show (readMany connectedInit vs).bufY = _
    rw [hb.2.2.1]
    show (vs.map (fun v => v.2.1)).foldl (ringPush buffer_size) [] = _
    rw [hd]
    simp only [List.length_nil, List.nil_append, List.length_map, hlen, Nat.zero_add,
      Nat.add_sub_cancel_left]
  have hz : get_buffer (readMany connectedInit vs) "Z" = (vs.map (fun v => v.2.2)).drop k := by
    have hd := ringPush_foldl_drop buffer_size hcap (vs.map (fun v => v.2.2)) [] hempty
    show (readMany connectedInit vs).bufZ = _
    rw [hb.2.2.2]
    show (vs.map (fun v => v.2.2)).foldl (ringPush buffer_size) [] = _
    rw [hd]
    simp only [List.length_nil, List.nil_append, List.length_map, hlen, Nat.zero_add,
      Nat.add_sub_cancel_left]
  refine ⟨⟨hx, hy, hz⟩, ?_, ?_, ?_⟩
  · rw [hx]; simp only [List.length_drop, List.length_map, hlen]; omega
  · rw [hy]; simp only [List.length_drop, List.length_map, hlen]; omega
  · rw [hz]; simp only [List.length_drop, List.length_map, hlen]; omega

theorem ring_buffer_last_capacity_witness :
    0 < 1 ∧ (List.replicate 3001 ((0:ℝ), (0:ℝ), (0:ℝ))).length = buffer_size + 1 ∧
    (get_buffer (readMany connectedInit (List.replicate 3001 ((0:ℝ), (0:ℝ), (0:ℝ)))) "Z").length
      = buffer_size :=
  ⟨Nat.zero_lt_one, by rw [List.length_replicate]; rfl,
   (ring_buffer_last_capacity (List.replicate 3001 ((0:ℝ), (0:ℝ), (0:ℝ))) 1
      Nat.zero_lt_one (by rw [List.length_replicate]; rfl)).2.2.2⟩

/-- C2: for a connected device, a read delivering fewer than 12 bytes leaves
the whole state unchanged (still connected, all three channel buffers — and
every other field — unmodified) and returns no sample, whereas a socket
timeout or an I/O error during the read forces `connected = false` (and also
returns no sample). -/
theorem read_data_incomplete_vs_disconnect (s : GeotinyDevice) (cs : Bool) (now : ℕ)
    (h : s.connected = true) :
    (∀ n x y z, n < 12 → read_data s cs (.recv n x y z) now = (s, none)) ∧
    ((read_data s cs .timeout now).1.connected = false ∧
     (read_data s cs .timeout now).2 = none) ∧
    ((read_data s cs .ioError now).1.connected = false ∧
     (read_data s cs .ioError now).2 = none) := by
  refine ⟨?_, ?_, ?_⟩
  · intro n x y z hn
    have hne : n ≠ 12 := by omega
    simp [read_data, h, hne]
  · constructor <;> simp [read_data, h, disconnectStep]
  · constructor <;> simp [read_data, h, disconnectStep]

theorem read_data_incomplete_vs_disconnect_witness :
    connectedInit.connected = true ∧
    read_data connectedInit true (.recv 7 0 0 0) 0 = (connectedInit, none) :=
  ⟨rfl, (read_data_incomplete_vs_disconnect connectedInit true 0 rfl).1 7 0 0 0 (by norm_num)⟩

theorem applyOp_buffers (s : GeotinyDevice) (op : DevOp) :
    ((applyOp s op).bufX = s.bufX ∧ (applyOp s op).bufY = s.bufY ∧
     (applyOp s op).bufZ = s.bufZ) ∨
    (∃ x y z, (applyOp s op).bufX = ringPush buffer_size s.bufX x ∧
              (applyOp s op).bufY = ringPush buffer_size s.bufY y ∧
              (applyOp s op).bufZ = ringPush buffer_size s.bufZ z) := by
  cases op with
  | opConnect b now =>
    left
    cases b <;> simp [applyOp, connectStep]
  | opDisconnect =>
    left
    simp [applyOp, disconnectStep]
  | opRead cs r now =>
    simp only [applyOp]
    cases hc : s.connected with
    | false =>
      cases hcs : cs with
      | false =>
        left
        simp [read_data, hc, connectStep]
      | true =>
        cases r with
        | recv n x y z =>
          by_cases hn : n = 12
          · right
            exact ⟨x, y, z, by subst hn; simp [read_data, hc, connectStep]⟩
          · left
            simp [read_data, hc, connectStep, hn]
        | timeout =>
          left
          simp [read_data, hc, connectStep, disconnectStep]
        | ioError =>
          left
          simp [read_data, hc, connectStep, disconnectStep]
    | true =>
      cases r with
      | recv n x y z =>
        by_cases hn : n = 12
        · right
          exact ⟨x, y, z, by subst hn; simp [read_data, hc]⟩
        · left
          simp [read_data, hc, hn]
      | timeout =>
        left
        simp [read_data, hc, disconnectStep]
      | ioError =>
        left
        simp [read_data, hc, disconnectStep]
  | opGetBuffer =>
    left
    exact ⟨rfl, rfl, rfl⟩
  | opGetStatus =>
    left
    exact ⟨rfl, rfl, rfl⟩

/-- C9: in every reachable device state the three channel buffers have equal
length, and every operation (connect, disconnect, read_data, get_buffer,
get_status) either appends exactly one decoded sample to all three buffers
(on a successful 12-byte read) or leaves all three unchanged.  The append
happens in one step of the transition function, mirroring the
`with self.lock:` block of `read_data`. -/
theorem device_buffer_lengths_equal (s : GeotinyDevice) (h : ReachableDev s) :
    (s.bufX.length = s.bufY.length ∧ s.bufY.length = s.bufZ.length) ∧
    ∀ op,
      ((applyOp s op).bufX = s.bufX ∧ (applyOp s op).bufY = s.bufY ∧
       (applyOp s op).bufZ = s.bufZ) ∨
      (∃ x y z, (applyOp s op).bufX = ringPush buffer_size s.bufX x ∧
                (applyOp s op).bufY = ringPush buffer_size s.bufY y ∧
                (applyOp s op).bufZ = ringPush buffer_size s.bufZ z) := by
  refine ⟨?_, fun op => applyOp_buffers s op⟩
  induction h with
  | init => simp [initDevice]
  | @step s' op hs ih =>
    rcases applyOp_buffers s' op with ⟨ex, ey, ez⟩ | ⟨x, y, z, ex, ey, ez⟩
    · rw [ex, ey, ez]; exact ih
    · rw [ex, ey, ez, ringPush_length, ringPush_length, ringPush_length,
        ih.1, ih.2]
      exact ⟨rfl, rfl⟩

theorem device_buffer_lengths_equal_witness :
    initDevice.bufX.length = initDevice.bufY.length ∧
    initDevice.bufY.length = initDevice.bufZ.length :=
  (device_buffer_lengths_equal initDevice ReachableDev.init).1

/-! ### Helper lemmas: the failing-device acquisition trace -/

theorem failTrace_succ (s0 : GeotinyDevice) (n : ℕ) :
    failTrace s0 (n + 1) =
      ((acqStep (failTrace s0 n).1 (failTrace s0 n).2 false .timeout n).1,
       (acqStep (failTrace s0 n).1 (failTrace s0 n).2 false .timeout n).2.1) := rfl

theorem failTrace_closed (s0 : GeotinyDevice) (h : s0.connected = false) :
    ∀ n, (failTrace s0 n).1.connected = false ∧ (failTrace s0 n).2 = n % 11 := by
  intro n
  induction n with
  | zero => exact ⟨h, rfl⟩
  | succ n ih =>
    obtain ⟨hc, hcount⟩ := ih
    rw [failTrace_succ]
    by_cases h10 : 10 ≤ (failTrace s0 n).2
    · have hs : acqStep (failTrace s0 n).1 (failTrace s0 n).2 false .timeout n =
          (connectStep (failTrace s0 n).1 false n, 0, true) := by
        simp [acqStep, hc, h10]
      rw [hs]
      refine ⟨by simp [connectStep], ?_⟩
      rw [hcount] at h10
      have : n % 11 = 10 := by omega
      simp only []
      omega
    · have hs : acqStep (failTrace s0 n).1 (failTrace s0 n).2 false .timeout n =
          ((failTrace s0 n).1, (failTrace s0 n).2 + 1, false) := by
        simp [acqStep, hc, h10]
      rw [hs]
      refine ⟨hc, ?_⟩
      rw [hcount] at h10 ⊢
      simp only []
      omega

theorem attemptAt_iff (s0 : GeotinyDevice) (h : s0.connected = false) (n : ℕ) :
    attemptAt s0 n = true ↔ n % 11 = 10 := by
  obtain ⟨hc, hcount⟩ := failTrace_closed s0 h n
  by_cases h10 : 10 ≤ (failTrace s0 n).2
  · have hs : acqStep (failTrace s0 n).1 (failTrace s0 n).2 false .timeout n =
        (connectStep (failTrace s0 n).1 false n, 0, true) := by
      simp [acqStep, hc, h10]
    unfold attemptAt
    rw [hs]
    rw [hcount] at h10
    simp only [Prod.snd]
    constructor
    · intro _
      omega
    · intro _
      trivial
  · have hs : acqStep (failTrace s0 n).1 (failTrace s0 n).2 false .timeout n =
        ((failTrace s0 n).1, (failTrace s0 n).2 + 1, false) := by
      simp [acqStep, hc, h10]
    unfold attemptAt
    rw [hs]
    rw [hcount] at h10
    simp only [Prod.snd]
    constructor
    · intro hfalse
      exact absurd hfalse (by simp)
    · intro h11
      omega

/-- C3: in the acquisition loop, a device that remains disconnected (its
`connect()` always failing) sees `connect()` attempted at most once in any
window of 10 consecutive poll cycles; a cycle below the threshold of 10 only
increments the retry counter without connecting; a cycle at the threshold
issues `connect()` and resets the counter to zero regardless of the connect
outcome; and a successful read resets the counter to zero. -/
theorem acquisition_backoff (s0 : GeotinyDevice) (h : s0.connected = false) :
    (∀ n, ((Finset.range 10).filter (fun k => attemptAt s0 (n + k) = true)).card ≤ 1) ∧
    (∀ (s : GeotinyDevice) (c : ℕ) (b : Bool) (r : RecvOutcome) (now : ℕ),
        s.connected = false → c < 10 → acqStep s c b r now = (s, c + 1, false)) ∧
    (∀ (s : GeotinyDevice) (c : ℕ) (b b' : Bool) (r r' : RecvOutcome) (now now' : ℕ),
        s.connected = false → 10 ≤ c →
        (acqStep s c b r now).2.1 = 0 ∧ (acqStep s c b r now).2.2 = true ∧
        (acqStep s c b r now).2.1 = (acqStep s c b' r' now').2.1) ∧
    (∀ (s : GeotinyDevice) (c : ℕ) (b : Bool) (x y z : ℝ) (now : ℕ),
        s.connected = true → (acqStep s c b (.recv 12 x y z) now).2.1 = 0) := by
  refine ⟨?_, ?_, ?_, ?_⟩
  · intro n
    rw [Finset.card_le_one]
    intro a ha b hb
    rw [Finset.mem_filter, Finset.mem_range] at ha hb
    rw [attemptAt_iff s0 h] at ha hb
    omega
  · intro s c b r now hs hc
    simp [acqStep, hs, Nat.not_le.mpr hc]
  · intro s c b b' r r' now now' hs hc
    refine ⟨?_, ?_, ?_⟩ <;> simp [acqStep, hs, hc]
  · intro s c b x y z now hs
    simp [acqStep, read_data, hs]

theorem acquisition_backoff_witness :
    initDevice.connected = false ∧
    ((Finset.range 10).filter (fun k => attemptAt initDevice (0 + k) = true)).card ≤ 1 :=
  ⟨rfl, (acquisition_backoff initDevice rfl).1 0⟩

/-! ### Helper lemma: getD of a mapped range -/

theorem getD_map_range (n : ℕ) (f : ℕ → ℝ) (i : ℕ) (h : i < n) (d : ℝ) :
    ((List.range n).map f).getD i d = f i := by
  rw [List.getD_eq_getElem?_getD]
  simp [List.getElem?_map, List.getElem?_range, h]

/-- C10: `get_latest_waveform` returns `None` — not an empty waveform, not an
error — whenever the device id is unknown or the selected channel's buffer is
empty; it is a pure function of the device table (mutating no device state by
construction); and on success the synthesized time axis satisfies
`times[i] = i/fs − bufferLength/fs` with `bufferLength` the full
(pre-truncation) buffer length. -/
theorem get_latest_waveform_spec (devices : String → Option GeotinyDevice)
    (device_id channel : String) (samples : ℕ) :
    (devices device_id = none →
        get_latest_waveform devices device_id channel samples = none) ∧
    (∀ dev, devices device_id = some dev → get_buffer dev channel = [] →
        get_latest_waveform devices device_id channel samples = none) ∧
    (∀ dev w, devices device_id = some dev →
        get_latest_waveform devices device_id channel samples = some w →
        w.times.length = w.data.length ∧
        ∀ i, i < w.times.length →
          w.times.getD i 0 =
            (i : ℝ) / dev.sampling_rate -
              ((get_buffer dev channel).length : ℝ) / dev.sampling_rate) := by
  refine ⟨?_, ?_, ?_⟩
  · intro h
    simp [get_latest_waveform, h]
  · intro dev hdev hbuf
    simp [get_latest_waveform, hdev, hbuf]
  · intro dev w hdev hw
    simp only [get_latest_waveform, hdev] at hw
    by_cases hb : (get_buffer dev channel).length = 0
    · simp [hb] at hw
    · simp only [hb, if_false] at hw
      obtain rfl := (Option.some.inj hw).symm
      constructor
      · simp
      · intro i hi
        simp only [List.length_map, List.length_range] at hi
        rw [getD_map_range _ _ _ hi]
        rw [mul_one_div, mul_one_div]

theorem get_latest_waveform_spec_witness :
    (fun _ : String => (none : Option GeotinyDevice)) "device_1" = none ∧
    get_latest_waveform (fun _ => none) "device_1" "Z" 1000 = none :=
  ⟨rfl, (get_latest_waveform_spec (fun _ => none) "device_1" "Z" 1000).1 rfl⟩

/-! ### Helper lemmas: archive trim/pad -/

theorem trimPad_length (y : List ℝ) (m : ℕ) : (trimPad y m).length = m := by
  simp only [trimPad, List.length_append, List.length_replicate, List.length_drop]
  omega

theorem trimPad_of_short (y : List ℝ) (m : ℕ) (h : y.length ≤ m) :
    trimPad y m = List.replicate (m - y.length) 0 ++ y := by
  simp [trimPad, Nat.sub_eq_zero_of_le h]

/-- C6: the archive-mode window loader pads a too-short record with zeros (at
the front, before the record, since the requested window extends into the
past) and the returned window's sample count equals `round(window_s · fs)`
exactly.  `trimPad` is modelled from the spec (the trim itself is an ObsPy
call not in this repository). -/
theorem load_last_window_trim_pad (tr : RawTrace) (rest : List RawTrace)
    (hygiene : List ℝ → List ℝ) (window_s : ℝ)
    (hfs : ¬ tr.fs ≤ 0) (hm : 10 ≤ windowCount window_s tr.fs) :
    load_last_window (some (tr :: rest)) hygiene window_s =
      .ok (mkWindow (trimPad (hygiene tr.data) (windowCount window_s tr.fs)) tr.fs) ∧
    (trimPad (hygiene tr.data) (windowCount window_s tr.fs)).length =
      windowCount window_s tr.fs ∧
    ((hygiene tr.data).length ≤ windowCount window_s tr.fs →
      trimPad (hygiene tr.data) (windowCount window_s tr.fs) =
        List.replicate (windowCount window_s tr.fs - (hygiene tr.data).length) 0 ++
          hygiene tr.data) := by
  refine ⟨?_, trimPad_length _ _, fun hsh => trimPad_of_short _ _ hsh⟩
  show (if tr.fs ≤ 0 then Except.error "Invalid sampling rate"
        else if (trimPad (hygiene tr.data) (windowCount window_s tr.fs)).length < 10 then
          Except.error "Trace too short"
        else Except.ok (mkWindow (trimPad (hygiene tr.data) (windowCount window_s tr.fs)) tr.fs))
      = _
  rw [if_neg hfs, if_neg (by rw [trimPad_length]; omega)]

theorem load_last_window_trim_pad_witness :
    ¬ (1:ℝ) ≤ 0 ∧ 10 ≤ windowCount 10 1 ∧
    load_last_window (some [⟨List.replicate 12 (1:ℝ), 1⟩]) id 10 =
      .ok (mkWindow (trimPad (id (List.replicate 12 (1:ℝ))) (windowCount 10 1)) 1) := by
  have hr : round ((10:ℝ) * 1) = 10 := by norm_num [round_eq]
  have hwc : windowCount 10 1 = 10 := by rw [windowCount, hr]; rfl
  exact ⟨by norm_num, by rw [hwc],
    (load_last_window_trim_pad ⟨List.replicate 12 (1:ℝ), 1⟩ [] id 10
      (by norm_num) (by rw [hwc])).1⟩

/-- C7: the archive-mode window loader fails with a distinct reported error —
and returns no partial or synthetic result — exactly in the four cases: no
matching record file, empty decoded stream, non-positive sampling rate, or a
resulting window of fewer than 10 samples; otherwise it succeeds and the
returned window carries RMS (`sqrt(mean(y·y))`) and peak-to-peak
(`max(y) − min(y)`) computed over the full windowed signal. -/
theorem load_last_window_errors (latest : Option (List RawTrace))
    (hygiene : List ℝ → List ℝ) (window_s : ℝ) :
    (latest = none →
        load_last_window latest hygiene window_s = .error "No miniSEED found") ∧
    (latest = some [] →
        load_last_window latest hygiene window_s = .error "Empty stream") ∧
    (∀ tr rest, latest = some (tr :: rest) → tr.fs ≤ 0 →
        load_last_window latest hygiene window_s = .error "Invalid sampling rate") ∧
    (∀ tr rest, latest = some (tr :: rest) → ¬ tr.fs ≤ 0 →
        windowCount window_s tr.fs < 10 →
        load_last_window latest hygiene window_s = .error "Trace too short") ∧
    (∀ tr rest, latest = some (tr :: rest) → ¬ tr.fs ≤ 0 →
        10 ≤ windowCount window_s tr.fs →
        load_last_window latest hygiene window_s =
          .ok (mkWindow (trimPad (hygiene tr.data) (windowCount window_s tr.fs)) tr.fs) ∧
        (mkWindow (trimPad (hygiene tr.data) (windowCount window_s tr.fs)) tr.fs).rms =
          Real.sqrt (listMean
            ((trimPad (hygiene tr.data) (windowCount window_s tr.fs)).map
              (fun v => v * v))) ∧
        (mkWindow (trimPad (hygiene tr.data) (windowCount window_s tr.fs)) tr.fs).p2p =
          maxList (trimPad (hygiene tr.data) (windowCount window_s tr.fs)) -
            minList (trimPad (hygiene tr.data) (windowCount window_s tr.fs))) := by
  refine ⟨?_, ?_, ?_, ?_, ?_⟩
  · intro h
    subst h
    rfl
  · intro h
    subst h
    rfl
  · intro tr rest h hfs
    subst h
    show (if tr.fs ≤ 0 then Except.error "Invalid sampling rate"
          else if (trimPad (hygiene tr.data) (windowCount window_s tr.fs)).length < 10 then
            Except.error "Trace too short"
          else Except.ok (mkWindow (trimPad (hygiene tr.data) (windowCount window_s tr.fs)) tr.fs))
        = _
    rw [if_pos hfs]
  · intro tr rest h hfs hshort
    subst h
    show (if tr.fs ≤ 0 then Except.error "Invalid sampling rate"
          else if (trimPad (hygiene tr.data) (windowCount window_s tr.fs)).length < 10 then
            Except.error "Trace too short"
          else Except.ok (mkWindow (trimPad (hygiene tr.data) (windowCount window_s tr.fs)) tr.fs))
        = _
    rw [if_neg hfs, if_pos (by rw [trimPad_length]; omega)]
  · intro tr rest h hfs hm
    subst h
    refine ⟨?_, rfl, rfl⟩
    show (if tr.fs ≤ 0 then Except.error "Invalid sampling rate"
          else if (trimPad (hygiene tr.data) (windowCount window_s tr.fs)).length < 10 then
            Except.error "Trace too short"
          else Except.ok (mkWindow (trimPad (hygiene tr.data) (windowCount window_s tr.fs)) tr.fs))
        = _
    rw [if_neg hfs, if_neg (by rw [trimPad_length]; omega)]

theorem load_last_window_errors_witness :
    (none : Option (List RawTrace)) = none ∧
    load_last_window none id 10 = .error "No miniSEED found" :=
  ⟨rfl, (load_last_window_errors none id 10).1 rfl⟩

/-! ### Helper lemmas: list maxima -/

theorem foldl_max_mem (a : ℝ) (t : List ℝ) : t.foldl max a ∈ a :: t := by
  induction t generalizing a with
  | nil => simp
  | cons b t ih =>
    rw [List.foldl_cons]
    rcases List.mem_cons.mp (ih (max a b)) with h | h
    · rw [h]
      rcases max_choice a b with h2 | h2 <;> rw [h2] <;> simp
    · exact List.mem_cons_of_mem _ (List.mem_cons_of_mem _ h)

theorem le_foldl_max (a : ℝ) (t : List ℝ) : ∀ y ∈ a :: t, y ≤ t.foldl max a := by
  induction t generalizing a with
  | nil =>
    intro y hy
    simp at hy
    simp [hy]
  | cons b t ih =>
    intro y hy
    rw [List.foldl_cons]
    rcases List.mem_cons.mp hy with rfl | hy2
    · exact le_trans (le_max_left y b) (ih (max y b) _ (List.mem_cons_self _ _))
    · rcases List.mem_cons.mp hy2 with rfl | hy3
      · exact le_trans (le_max_right a y) (ih (max a y) _ (List.mem_cons_self _ _))
      · exact ih (max a b) y (List.mem_cons_of_mem _ hy3)

theorem maxList_mem (l : List ℝ) (h : l ≠ []) : maxList l ∈ l := by
  cases l with
  | nil => exact absurd rfl h
  | cons a t => exact foldl_max_mem a t

theorem le_maxList (l : List ℝ) : ∀ y ∈ l, y ≤ maxList l := by
  cases l with
  | nil => simp
  | cons a t => exact le_foldl_max a t

theorem foldl_max_map_sub (c : ℝ) : ∀ (t : List ℝ) (a : ℝ),
    (t.map (fun v => v - c)).foldl max (a - c) = t.foldl max a - c := by
  intro t
  induction t with
  | nil => intro a; rfl
  | cons b t ih =>
    intro a
    rw [List.map_cons, List.foldl_cons, List.foldl_cons, max_sub_sub_right a b c, ih]

theorem maxList_map_sub (l : List ℝ) (c : ℝ) (h : l ≠ []) :
    maxList (l.map (fun v => v - c)) = maxList l - c := by
  cases l with
  | nil => exact absurd rfl h
  | cons a t =>
    rw [List.map_cons]
    exact foldl_max_map_sub c t a

/-- C8: for an input of at least 2 samples (the only case in which
`compute_fft` returns a spectrum at all), the returned dB spectrum equals
`20·log10(|X| + 1e-10)` minus its own maximum, so its maximum value is
exactly 0: zero is attained and every entry is `≤ 0`. -/
theorem compute_fft_db_normalized (data : List ℝ) (sr : ℝ) (h : 2 ≤ data.length) :
    compute_fft data sr =
      some ((List.range (data.length / 2)).map (fun (k : ℕ) => (k : ℝ) * sr / data.length),
            fftNormDb data, fftLinVals data) ∧
    fftNormDb data = (fftRawDb data).map (fun v => v - maxList (fftRawDb data)) ∧
    maxList (fftNormDb data) = 0 ∧
    0 ∈ fftNormDb data ∧
    ∀ v ∈ fftNormDb data, v ≤ 0 := by
  have hlen : (fftRawDb data).length = data.length / 2 := by
    simp [fftRawDb, fftLinVals]
  have hne : fftRawDb data ≠ [] := by
    apply List.ne_nil_of_length_pos
    rw [hlen]
    omega
  have hmax : maxList (fftNormDb data) = 0 := by
    rw [fftNormDb, maxList_map_sub _ _ hne, sub_self]
  refine ⟨by rw [compute_fft, if_neg (by omega)], rfl, hmax, ?_, ?_⟩
  · rw [← hmax]
    apply maxList_mem
    apply List.ne_nil_of_length_pos
    simp only [fftNormDb, List.length_map, hlen]
    omega
  · intro v hv
    calc v ≤ maxList (fftNormDb data) := le_maxList _ v hv
      _ = 0 := hmax

theorem compute_fft_db_normalized_witness :
    2 ≤ ([0, 1] : List ℝ).length ∧ maxList (fftNormDb [0, 1]) = 0 :=
  ⟨by norm_num, (compute_fft_db_normalized [0, 1] 100 (by norm_num)).2.2.1⟩

/-! ### Helper lemmas: first argmax -/

theorem getD_drop_one (l : List ℝ) (m : ℕ) (d : ℝ) :
    (l.drop 1).getD m d = l.getD (1 + m) d := by
  rw [List.getD_eq_getElem?_getD, List.getD_eq_getElem?_getD, List.getElem?_drop]

theorem firstArgmax_spec : ∀ (l : List ℝ), l ≠ [] →
    firstArgmax l < l.length ∧ ∀ j < l.length, l.getD j 0 ≤ l.getD (firstArgmax l) 0 := by
  intro l
  induction l with
  | nil => intro h; exact absurd rfl h
  | cons a t ih =>
    intro _
    cases t with
    | nil =>
      refine ⟨by simp [firstArgmax], ?_⟩
      intro j hj
      simp only [List.length_cons, List.length_nil] at hj
      have hj0 : j = 0 := by omega
      subst hj0
      simp [firstArgmax]
    | cons b t2 =>
      have ih' := ih (by simp)
      by_cases hle : (b :: t2).getD (firstArgmax (b :: t2)) 0 ≤ a
      · have he : firstArgmax (a :: b :: t2) = 0 := by
          simp only [firstArgmax]
          rw [if_pos hle]
        rw [he]
        refine ⟨by simp, ?_⟩
        intro j hj
        rw [List.getD_cons_zero]
        cases j with
        | zero => simp
        | succ j2 =>
          rw [List.getD_cons_succ]
          exact le_trans (ih'.2 j2 (by simpa using hj)) hle
      · have he : firstArgmax (a :: b :: t2) = firstArgmax (b :: t2) + 1 := by
          simp only [firstArgmax]
          rw [if_neg hle]
        rw [he]
        constructor
        · have := ih'.1
          simp only [List.length_cons] at this ⊢
          omega
        · intro j hj
          rw [List.getD_cons_succ]
          cases j with
          | zero =>
            rw [List.getD_cons_zero]
            exact le_of_lt (lt_of_not_le hle)
          | succ j2 =>
            rw [List.getD_cons_succ]
            exact ih'.2 j2 (by simpa using hj)

theorem dominant_index_spec (f2 mag2 : List ℝ) (hlen : mag2.length = f2.length)
    (h3 : 2 < f2.length) :
    1 ≤ firstArgmax (mag2.drop 1) + 1 ∧
    firstArgmax (mag2.drop 1) + 1 < mag2.length ∧
    ∀ j, 1 ≤ j → j < mag2.length →
      mag2.getD j 0 ≤ mag2.getD (firstArgmax (mag2.drop 1) + 1) 0 := by
  have hne : mag2.drop 1 ≠ [] :=
    List.ne_nil_of_length_pos (by rw [List.length_drop]; omega)
  obtain ⟨hlt, hmax⟩ := firstArgmax_spec (mag2.drop 1) hne
  rw [List.length_drop] at hlt
  refine ⟨Nat.le_add_left 1 _, by omega, ?_⟩
  intro j hj1 hj2
  have hj : mag2.getD j 0 = (mag2.drop 1).getD (j - 1) 0 := by
    rw [getD_drop_one]
    congr 1
    omega
  have hi : mag2.getD (firstArgmax (mag2.drop 1) + 1) 0 =
      (mag2.drop 1).getD (firstArgmax (mag2.drop 1)) 0 := by
    rw [getD_drop_one]
    congr 1
    omega
  rw [hj, hi]
  exact hmax (j - 1) (by rw [List.length_drop]; omega)

theorem map_fst_snd_dominant (pairs : List (ℝ × ℝ))
    (h3 : 2 < (pairs.map Prod.fst).length) :
    ∃ i, 1 ≤ i ∧ i < (pairs.map Prod.snd).length ∧
      (pairs.map Prod.fst).getD (firstArgmax ((pairs.map Prod.snd).drop 1) + 1) 0 =
        (pairs.map Prod.fst).getD i 0 ∧
      ∀ j, 1 ≤ j → j < (pairs.map Prod.snd).length →
        (pairs.map Prod.snd).getD j 0 ≤ (pairs.map Prod.snd).getD i 0 := by
  obtain ⟨h1, h2, hmax⟩ :=
    dominant_index_spec (pairs.map Prod.fst) (pairs.map Prod.snd) (by simp) h3
  exact ⟨_, h1, h2, rfl, hmax⟩

/-- C5: `_fft_mag` truncates both axes to `min(fmax, fs/2)` (both keep the
same length and every remaining frequency is below the ceiling); whenever
more than 2 frequency bins remain, the reported dominant frequency is the
frequency of a maximum-magnitude bin excluding bin 0 (DC); with at most 2
bins the dominant frequency is reported as 0 rather than as an error. -/
theorem fft_mag_dominant (wave : List ℝ) (fs fmax : ℝ) :
    (fft_mag wave fs fmax).1.length = (fft_mag wave fs fmax).2.1.length ∧
    (∀ g ∈ (fft_mag wave fs fmax).1, g ≤ min fmax (fs / 2)) ∧
    ((fft_mag wave fs fmax).1.length ≤ 2 → (fft_mag wave fs fmax).2.2 = 0) ∧
    (2 < (fft_mag wave fs fmax).1.length →
      ∃ i, 1 ≤ i ∧ i < (fft_mag wave fs fmax).2.1.length ∧
        (fft_mag wave fs fmax).2.2 = (fft_mag wave fs fmax).1.getD i 0 ∧
        ∀ j, 1 ≤ j → j < (fft_mag wave fs fmax).2.1.length →
          (fft_mag wave fs fmax).2.1.getD j 0 ≤
            (fft_mag wave fs fmax).2.1.getD i 0) := by
  simp only [fft_mag]
  refine ⟨by simp, ?_, ?_, ?_⟩
  · intro g hg
    rw [List.mem_map] at hg
    obtain ⟨p, hp, rfl⟩ := hg
    rw [List.mem_filter] at hp
    exact of_decide_eq_true hp.2
  · intro hle
    rw [if_neg (by omega)]
  · intro hgt
    rw [if_pos hgt]
    exact map_fst_snd_dominant _ hgt

theorem fft_mag_dominant_witness :
    (fft_mag [(1:ℝ)] 100 50).1.length = (fft_mag [(1:ℝ)] 100 50).2.1.length ∧
    (fft_mag [(1:ℝ)] 100 50).2.2 = 0 := by
  have hb : (fft_mag [(1:ℝ)] 100 50).1.length ≤ 2 := by
    simp only [fft_mag, List.length_map]
    exact le_trans (List.length_filter_le _ _) (by simp)
  exact ⟨(fft_mag_dominant [(1:ℝ)] 100 50).1, (fft_mag_dominant [(1:ℝ)] 100 50).2.2.1 hb⟩

/-! ### Helper lemmas: the Welch accumulation loop -/

theorem welchLoop_eq_sum (xc : List ℝ) (L hop : ℕ) :
    ∀ (fuel s0 : ℕ) (P : ℕ → ℝ),
      (∀ s, s < fuel → ((xc.drop ((s0 + s) * hop)).take L).length = L) →
      welchLoop xc L hop s0 fuel P =
        fun k => P k + ∑ s ∈ Finset.range fuel, segPowerAt xc L hop (s0 + s) k := by
  intro fuel
  induction fuel with
  | zero =>
    intro s0 P h
    funext k
    simp [welchLoop]
  | succ fuel ih =>
    intro s0 P h
    have h0 : ((xc.drop (s0 * hop)).take L).length = L := by
      have := h 0 (Nat.succ_pos fuel)
      simpa using this
    have hrest : ∀ s, s < fuel → ((xc.drop ((s0 + 1 + s) * hop)).take L).length = L := by
      intro s hs
      have := h (s + 1) (by omega)
      rw [show s0 + 1 + s = s0 + (s + 1) by omega]
      exact this
    simp only [welchLoop]
    rw [if_pos h0, ih (s0 + 1) _ hrest]
    funext k
    rw [Finset.sum_range_succ']
    have he : ∀ s, s0 + 1 + s = s0 + (s + 1) := fun s => by omega
    simp only [he, Nat.add_zero]
    ring

/-- C4: for `fs > 0` and overlap `O < L`, the Welch estimator `_welch_amp2`
(run with no frequency ceiling) returns empty frequency and magnitude axes —
rather than an error — when fewer than one complete segment fits; otherwise
its frequency axis is `k·fs/L` over the `L/2 + 1` one-sided bins and its
magnitude at bin `k` is the square root of the average over all complete
segments of the per-segment power `segPowerAt` — which removes the global
mean, then per segment removes the segment mean, applies a Hann window, takes
the one-sided FFT, normalizes by `(L · coherentGain)²` and doubles the
non-edge bins (`binDouble`, which never doubles bin 0). -/
theorem welch_amp2_spec (wave : List ℝ) (fs : ℝ) (L O : ℕ)
    (hfs : 0 < fs) (hO : O < L) :
    (wave.length < L → welch_amp2 wave fs L O none = ([], [])) ∧
    (max 2 L ≤ wave.length →
      (welch_amp2 wave fs L O none).1 =
        (List.range (L / 2 + 1)).map (fun (k : ℕ) => (k : ℝ) * fs / L) ∧
      (welch_amp2 wave fs L O none).2 =
        (List.range (L / 2 + 1)).map (fun k =>
          Real.sqrt ((∑ s ∈ Finset.range (1 + (wave.length - L) / (L - O)),
              segPowerAt (demean wave) L (L - O) s k) /
            ((1 + (wave.length - L) / (L - O) : ℕ) : ℝ))) ∧
      binDouble L (L / 2 + 1) 0 = 1) := by
  constructor
  · intro h
    simp only [welch_amp2]
    rw [if_pos (Or.inr (by omega))]
  · intro h
    have hhop : max 1 (L - O) = L - O := by omega
    have hLn : L ≤ wave.length := le_trans (le_max_right 2 L) h
    have hdm : (demean wave).length = wave.length := by simp [demean]
    have hguard : ∀ s, s < 1 + (wave.length - L) / (L - O) →
        (((demean wave).drop ((0 + s) * (L - O))).take L).length = L := by
      intro s hs
      have h1 : s * (L - O) ≤ wave.length - L := by
        have h2 : s ≤ (wave.length - L) / (L - O) := by omega
        exact le_trans (Nat.mul_le_mul_right _ h2) (Nat.div_mul_le_self _ _)
      simp only [Nat.zero_add]
      rw [List.length_take, List.length_drop, hdm]
      omega
    have hcond : ¬(fs ≤ 0 ∨ wave.length < max 2 L) := by
      rw [not_or]
      exact ⟨not_le.mpr hfs, not_lt.mpr h⟩
    refine ⟨?_, ?_, ?_⟩
    · simp only [welch_amp2]
      rw [if_neg hcond, hhop, if_neg (Nat.not_lt.mpr (Nat.le_add_right 1 _))]
    · simp only [welch_amp2]
      rw [if_neg hcond, hhop, if_neg (Nat.not_lt.mpr (Nat.le_add_right 1 _)),
        welchLoop_eq_sum (demean wave) L (L - O) (1 + (wave.length - L) / (L - O)) 0
          (fun _ => 0) hguard]
      have hmax : max 1 (1 + (wave.length - L) / (L - O)) =
          1 + (wave.length - L) / (L - O) := max_eq_right (Nat.le_add_right 1 _)
      simp only [hmax, zero_add, Nat.zero_add]
    · simp [binDouble]

theorem welch_amp2_spec_witness :
    (0:ℝ) < 1 ∧ (0:ℕ) < 2 ∧ welch_amp2 [] 1 2 0 none = ([], []) :=
  ⟨by norm_num, by norm_num,
   (welch_amp2_spec [] 1 2 0 (by norm_num) (by norm_num)).1 (by simp)⟩
